import Mathlib

/-!
Verification of the outlier-detection and reference-noise-model subsystem of
the LCExtract repository, via a shallow embedding of the relevant Python code
into Lean.  Numbers are modelled as exact rationals; Python `dict`/pandas
`Series` lookups, which raise `KeyError` on a missing key, are modelled as
`Option`/`Except`; NaN values (where they matter) are modelled as `none`.
-/

namespace LCE

/-! ## Noise model: `LCExtract/utilities.py::threeSigma` and
    `LCExtract/config.py::medSD_c` -/

/-- A Python dict key: `medSD_c` is keyed by one-character filter strings,
but `threeSigma` indexes it with the integers `0 .. len(c)-1`. -/
inductive PyKey where
  | str : Char → PyKey
  | int : Nat → PyKey
deriving DecidableEq, Repr

/-- The 9 degree-8 polynomial coefficients for the ZTF g filter
(`config.medSD_c['g']`), highest power first, as exact rationals. -/
def gCoeffs : List ℚ :=
  [552593602/10^15, -784244669/10^13, 484231576/10^11, -169929569/10^9,
   370746577/10^8, -515010235/10^7, 444837098/10^6, -218429205/10^5,
   466813446/10^5]

/-- The 9 degree-8 polynomial coefficients for the ZTF r filter
(`config.medSD_c['r']`), highest power first, as exact rationals. -/
def rCoeffs : List ℚ :=
  [-542286684/10^16, 777543805/10^14, -484682328/10^12, 170914304/10^10,
   -371645230/10^9, 508729087/10^8, -426875655/10^7, 200139505/10^6,
   -399936057/10^6]

/-- `config.medSD_c`: a dict mapping the filter strings `'g'` and `'r'` to
their 9-tuples of fitted coefficients.  (An older revision, still present as
a comment in `config.py`, had `medSD_c` as a flat 9-element list.) -/
def medSD_c : List (PyKey × List ℚ) :=
  [(PyKey.str 'g', gCoeffs), (PyKey.str 'r', rCoeffs)]

/-- Python dict lookup: first entry with the given key, `KeyError` = `none`. -/
def dictGet : List (PyKey × List ℚ) → PyKey → Option (List ℚ)
  | [], _ => none
  | (k, v) :: d, a => if k = a then some v else dictGet d a

/-- The accumulation loop of `threeSigma`:
`for o in range(len(c)): y1 += c[o] * mag ** (len(c) - o - 1)`.
Each `c[o]` is a dict lookup with the *integer* key `o`; since `medSD_c` is
keyed by the strings `'g'`/`'r'`, this raises `KeyError`.  (Were the lookup
ever to succeed it would yield a tuple, and `tuple * float` would raise
`TypeError`; that branch is therefore also an error.) -/
def threeSigmaLoop (c : List (PyKey × List ℚ)) (mag : ℚ) :
    List Nat → ℚ → Except String ℚ
  | [], y1 => Except.ok y1
  | o :: os, y1 =>
    match dictGet c (PyKey.int o) with
    | none => Except.error "KeyError"
    | some _ => Except.error "TypeError"

/-- `LCExtract/utilities.py::threeSigma` (the archive argument is unused by
the function body and omitted): `y1 = 0`; if the filter is `'g'`, accumulate
`c[o] * mag ** (len(c) - o - 1)` over `o in range(len(c))` with
`c = config.medSD_c`; return `3 * y1`. -/
def threeSigma (filterID : Char) (mag : ℚ) : Except String ℚ :=
  if filterID = 'g' then
    match threeSigmaLoop medSD_c mag (List.range medSD_c.length) 0 with
    | Except.ok y1 => Except.ok (3 * y1)
    | Except.error e => Except.error e
  else
    Except.ok (3 * 0)

/-- Modelled from the spec: the NoiseModel band evaluation as §4.2 of the
spec describes it, `y = 3 * Σ_{k=0}^{8} c_k * magnitude^(8-k)` over the nine
coefficients `c` (highest power first).  This is the contract the source's
`threeSigma` is compared against; it is not code of the repository. -/
def polySumSpec : List ℚ → ℚ → ℚ
  | [], _ => 0
  | c :: cs, mag => c * mag ^ cs.length + polySumSpec cs mag

/-- Modelled from the spec (continued): `evaluate = 3 * polySumSpec c mag`;
for a 9-coefficient list the `k`-th coefficient multiplies `mag^(8-k)`. -/
def noiseModelEvaluateSpec (c : List ℚ) (mag : ℚ) : ℚ :=
  3 * polySumSpec c mag

/-! ## Measurement table rows and the outlier classifier
    (`LCExtract/dataretrieve.py::AODataClass.outliersExist`, `setID`) -/

/-- The per-row `outlier` tag written by `outliersExist`. -/
inductive Tag where
  | inside | high | low
deriving DecidableEq, Repr

/-- One row of the measurement table, with the fields `outliersExist` and
`setID` read or write: filter code, object id, magnitude, magnitude error
and the mutable `outlier` tag column. -/
structure LCRow where
  filterID : Char
  oid : Nat
  mag : ℚ
  magErr : ℚ
  outlier : Tag
deriving DecidableEq, Repr

/-- `config.threshold`: the acceptance thresholds. -/
structure Threshold where
  countMin : ℤ
  countMax : ℤ
  countPC : ℚ
  magScalar : ℚ
deriving DecidableEq, Repr

/-- The default `config.threshold` values. -/
def defaultThreshold : Threshold := ⟨1, 30, 1/10, 1⟩

/-- Python `int()` applied to a float: truncation toward zero. -/
def pyInt (q : ℚ) : ℤ := if q < 0 then ⌈q⌉ else ⌊q⌋

/-- `pandas.Series.unique`: the distinct values in first-seen order
(`seen` accumulates values already emitted). -/
def uniqueFirstAux {α : Type} [DecidableEq α] (seen : List α) :
    List α → List α
  | [] => []
  | a :: l =>
    if a ∈ seen then uniqueFirstAux seen l
    else a :: uniqueFirstAux (a :: seen) l

/-- The distinct values of a list in order of first appearance. -/
def uniqueFirst {α : Type} [DecidableEq α] (l : List α) : List α :=
  uniqueFirstAux [] l

/-- `AODataClass.set_filtersReturned`: the distinct filter codes of the
table, in order of first appearance. -/
def filtersReturnedOf (table : List LCRow) : List Char :=
  uniqueFirst (table.map (fun r => r.filterID))

/-- The first `.loc` assignment of `outliersExist`: tag `'high'` every row
with this filter whose `mag - magErr` is `>= upLim`. -/
def highRow (f : Char) (upLim : ℚ) (r : LCRow) : LCRow :=
  if r.filterID = f ∧ upLim ≤ r.mag - r.magErr then { r with outlier := Tag.high } else r

/-- The second `.loc` assignment of `outliersExist`: tag `'low'` every row
with this filter whose `mag + magErr` is `<= loLim` (overwriting `'high'`). -/
def lowRow (f : Char) (loLim : ℚ) (r : LCRow) : LCRow :=
  if r.filterID = f ∧ r.mag + r.magErr ≤ loLim then { r with outlier := Tag.low } else r

/-- One filter's tagging pass: the `'high'` assignment followed by the
`'low'` assignment. -/
def tagPass (f : Char) (upLim loLim : ℚ) (rows : List LCRow) : List LCRow :=
  (rows.map (highRow f upLim)).map (lowRow f loLim)

/-- `outlierCount`: the number of rows of this filter whose tag is not
`'inside'`. -/
def outlierCount (f : Char) (rows : List LCRow) : Nat :=
  (rows.filter (fun r => decide (r.filterID = f ∧ r.outlier ≠ Tag.inside))).length

/-- Python dict lookup on the response dict built by `outliersExist`. -/
def respLookup : List (Char × Bool) → Char → Option Bool
  | [], _ => none
  | (k, v) :: l, a => if k = a then some v else respLookup l a

/-- The `for f in self.filtersReturned` loop of `outliersExist`.  `'i'` is
reported `False` without computation; for any other filter the pandas/dict
lookups `self.median[f]`, `self.sigma3[f]` and `self.samples[f]` raise
`KeyError` (modelled as `Except.error`) when the key is missing; otherwise
the rows of the filter are tagged and the two count criteria decide the
verdict. -/
def outliersLoop (median sigma3 : Char → Option ℚ) (samples : Char → Option Nat)
    (thr : Threshold) :
    List Char → List (Char × Bool) → List LCRow →
    Except String (List (Char × Bool) × List LCRow)
  | [], resp, rows => Except.ok (resp, rows)
  | f :: fs, resp, rows =>
    if f = 'i' then
      outliersLoop median sigma3 samples thr fs (resp ++ [(f, false)]) rows
    else
      match median f with
      | none => Except.error "KeyError"
      | some med =>
        match sigma3 f with
        | none => Except.error "KeyError"
        | some s3 =>
          let rows' := tagPass f (med + s3) (med - s3) rows
          match samples f with
          | none => Except.error "KeyError"
          | some n =>
            let oc : ℤ := (outlierCount f rows' : ℤ)
            let verdict := decide (thr.countMin ≤ oc ∧ oc ≤ thr.countMax) &&
                           decide (oc ≤ pyInt ((n : ℚ) * thr.countPC))
            outliersLoop median sigma3 samples thr fs (resp ++ [(f, verdict)]) rows'

/-- Reset of the `outlier` column: `self.table['outlier'] = 'inside'`. -/
def resetTags (rows : List LCRow) : List LCRow :=
  rows.map (fun r => { r with outlier := Tag.inside })

/-- `AODataClass.outliersExist`: reset the `outlier` column to `'inside'`,
then iterate the per-filter classification loop over `filtersReturned`,
producing the per-filter verdict dict and the (mutated) table. -/
def outliersExist (median sigma3 : Char → Option ℚ) (samples : Char → Option Nat)
    (thr : Threshold) (filtersReturned : List Char) (table : List LCRow) :
    Except String (List (Char × Bool) × List LCRow) :=
  outliersLoop median sigma3 samples thr filtersReturned [] (resetTags table)

/-! ### `AODataClass.setID`: primary object id per filter -/

/-- `len(self.table[self.table[oidField] == id])`: the number of rows of the
*whole* table carrying this object id (not restricted to one filter). -/
def countOID (table : List LCRow) (oid : Nat) : Nat :=
  (table.filter (fun r => decide (r.oid = oid))).length

/-- The number of rows of the given filter carrying this object id (the
per-filter count the spec speaks about). -/
def countOIDInFilter (table : List LCRow) (f : Char) (oid : Nat) : Nat :=
  (table.filter (fun r => decide (r.filterID = f ∧ r.oid = oid))).length

/-- The distinct object ids of the filter's rows, in first-seen order
(`oidArray` in `setID`). -/
def oidArrayOf (table : List LCRow) (f : Char) : List Nat :=
  uniqueFirst ((table.filter (fun r => decide (r.filterID = f))).map (fun r => r.oid))

/-- The `for id in oidArray` loop of `setID`: keep the id whose whole-table
row count strictly exceeds the running maximum `maxC` (initially 0). -/
def setIDLoop (table : List LCRow) : List Nat → Option Nat → Nat → Option Nat
  | [], best, _ => best
  | oid :: ids, best, maxC =>
    let c := countOID table oid
    if c > maxC then setIDLoop table ids (some oid) c
    else setIDLoop table ids best maxC

/-- `AODataClass.setID`, for one filter: if the filter's rows carry a single
distinct id, that id; otherwise the id selected by the strict-improvement
scan over `oidArray` (`none` when the filter has no rows, matching
`self.id[f]` never being assigned). -/
def setIDFor (table : List LCRow) (f : Char) : Option Nat :=
  let oidArray := oidArrayOf table f
  if oidArray.length ≠ 1 then setIDLoop table oidArray none 0
  else oidArray.head?

/-! ## Reference calibration (`SDSSRefs/SDSS.py::SDSSdata.statsOfStats` and
    `SDSSdata.optimiseStats`)

One magnitude bin, for one fixed filter `f`.  A row of `self.samples`
carries, for that filter, the fields the calibration reads or writes:
`ZTFObject`, `ZTF{f}Samples`, `ZTF{f}SD` (NaN modelled as `none`) and the
mutable membership flag `Stat{f}Included`.  `np.nanstd` computes a real
square root, which is irrational over `ℚ`, so the scatter estimator is a
parameter `stdFn` of the embedding (applied to the non-NaN values); every
theorem below holds for an arbitrary estimator, and where a claim needs the
actual estimator's value (scatter of identical values = 0) that value is a
hypothesis discharged at the witness. -/

/-- One reference-star row of an `SDSSdata` bin, for a fixed filter. -/
structure RefRow where
  ztfObject : Bool
  samplesLC : Nat
  sd : Option ℚ
  included : Bool
deriving DecidableEq, Repr

/-- The per-bin, per-filter statistics state of `SDSSdata` (the `[f]` entry
of each of its dicts) together with the bin's rows. -/
structure CalibState where
  rows : List RefRow
  medianOfSD : ℚ
  sdOfSD : ℚ
  meanOfSD : ℚ
  meanSamplesLC : ℚ
  totalSamples : Nat
  usedSamples : Nat
deriving DecidableEq, Repr

/-- The non-NaN values of a column. -/
def denan (xs : List (Option ℚ)) : List ℚ := xs.filterMap id

/-- The median of a list of rationals: middle element of the sorted list,
or the average of the two middle elements (0 on the empty list, a junk value
that the guarded call sites never produce: `np.nanmedian` of an all-NaN
column is NaN, and both callers guard against that case). -/
def medianQ (l : List ℚ) : ℚ :=
  let s := l.mergeSort (fun a b => decide (a ≤ b))
  if s.length = 0 then 0
  else if s.length % 2 = 1 then s.getD (s.length / 2) 0
  else (s.getD (s.length / 2 - 1) 0 + s.getD (s.length / 2) 0) / 2

/-- `np.nanmedian` of a column with NaNs modelled as `none`. -/
def nanmedian (xs : List (Option ℚ)) : ℚ := medianQ (denan xs)

/-- `np.nanmean` of a column with NaNs modelled as `none`. -/
def nanmean (xs : List (Option ℚ)) : ℚ :=
  let v := denan xs
  if v.length = 0 then 0 else v.sum / v.length

/-- `np.nanmean` of an integer column (no NaNs possible). -/
def meanNat (xs : List Nat) : ℚ :=
  if xs.length = 0 then 0 else ((xs.map (fun n => (n : ℚ))).sum) / xs.length

/-- `SDSSdata._setDetailStats(p, f)`: recompute `medianOfSD[f]`,
`SDofSD[f]`, `meanOfSD[f]` and `meanSamplesLC[f]` over the rows `p`. -/
def setDetailStats (stdFn : List ℚ → ℚ) (st : CalibState) (p : List RefRow) :
    CalibState :=
  { st with
    medianOfSD := nanmedian (p.map (fun r => r.sd)),
    sdOfSD := stdFn (denan (p.map (fun r => r.sd))),
    meanOfSD := nanmean (p.map (fun r => r.sd)),
    meanSamplesLC := meanNat (p.map (fun r => r.samplesLC)) }

/-- The NaN screening of `statsOfStats`:
`self.samples[f'Stat{f}Included'][np.where(np.isnan(...))] = False`. -/
def screenRow (r : RefRow) : RefRow :=
  if (r.sd).isNone then { r with included := false } else r

/-- `SDSSdata.statsOfStats(f)`: clear the `Included` flag of every row whose
SD is NaN, then over the `ZTFObject == True` subset `p` set the sample
counts and, when the bin is non-degenerate (`totalSamples` and
`usedSamples` nonzero and not all SDs NaN), seed the detail statistics. -/
def statsOfStats (stdFn : List ℚ → ℚ) (st : CalibState) : CalibState :=
  let rows := st.rows.map screenRow
  let p := rows.filter (fun r => r.ztfObject)
  let st1 : CalibState := { st with
    rows := rows,
    totalSamples := p.length,
    usedSamples := (p.filter (fun r => decide (r.samplesLC ≠ 0))).length }
  if st1.totalSamples ≠ 0 ∧ st1.usedSamples ≠ 0 ∧
      (p.all (fun r => (r.sd).isNone)) = false then
    setDetailStats stdFn st1 p
  else st1

/-- One clipping assignment of `optimiseStats`: clear the `Included` flag of
every row whose SD lies outside `medianOfSD ± sigma * SDofSD`.  A NaN SD
compares `False` on both sides in numpy, so such rows are left alone. -/
def clipRow (med sdv sigma : ℚ) (r : RefRow) : RefRow :=
  match r.sd with
  | none => r
  | some v =>
    if med + sigma * sdv < v ∨ v < med - sigma * sdv then
      { r with included := false }
    else r

/-- The rows currently included in the statistics
(`self.samples[(self.samples[f'Stat{f}Included'] == True)]`). -/
def includedRows (rows : List RefRow) : List RefRow :=
  rows.filter (fun r => r.included)

/-- The `while len(p) and count < config.optCycles` loop of
`optimiseStats`, with `fuel = optCycles - count`: clip, recompute the
surviving set `p`, and either update `usedSamples` and the detail
statistics and continue, or break (surviving set empty or its size equal to
the previous `usedSamples`), retaining the last statistics. -/
def optimiseLoop (stdFn : List ℚ → ℚ) (sigma : ℚ) :
    Nat → CalibState → CalibState
  | 0, st => st
  | Nat.succ fuel, st =>
    if (includedRows st.rows).length = 0 then st
    else
      let rows := st.rows.map (clipRow st.medianOfSD st.sdOfSD sigma)
      let p := includedRows rows
      if p.length ≠ 0 ∧ p.length ≠ st.usedSamples then
        optimiseLoop stdFn sigma fuel
          (setDetailStats stdFn { st with rows := rows, usedSamples := p.length } p)
      else { st with rows := rows }

/-- `SDSSdata.optimiseStats(f)`: run the clipping loop (at most `optCycles`
iterations) when `usedSamples[f]` is nonzero. -/
def optimiseStats (stdFn : List ℚ → ℚ) (sigma : ℚ) (optCycles : Nat)
    (st : CalibState) : CalibState :=
  if st.usedSamples ≠ 0 then optimiseLoop stdFn sigma optCycles st else st

/-- Termination measure for the clipping loop: once the fuel is at least
`muCalib st`, adding more fuel cannot change the result, i.e. the loop
converges within `muCalib st` cycles even with the cycle cap removed. -/
def muCalib (st : CalibState) : Nat :=
  2 * (includedRows st.rows).length +
    (if st.usedSamples = (includedRows st.rows).length then 1 else 2)

/-! ## Lemmas about the classifier loop -/

/-- Both `.loc` assignments of one tagging pass, fused per row. -/
def passRow (f : Char) (upLim loLim : ℚ) (r : LCRow) : LCRow :=
  lowRow f loLim (highRow f upLim r)

/-- The classification a row gets, per §4.3 of the spec, with the `'low'`
test taking precedence over the `'high'` test (the sequential-overwrite
order of the source). -/
def classifiedTag (med band : ℚ) (r : LCRow) : Tag :=
  if r.mag + r.magErr ≤ med - band then Tag.low
  else if med + band ≤ r.mag - r.magErr then Tag.high
  else Tag.inside

theorem tagPass_eq_map (f : Char) (u lo : ℚ) (rows : List LCRow) :
    tagPass f u lo rows = rows.map (passRow f u lo) := by
  simp [tagPass, passRow, List.map_map, Function.comp]

theorem highRow_filterID (f : Char) (u : ℚ) (r : LCRow) :
    (highRow f u r).filterID = r.filterID := by
  unfold highRow; split <;> rfl

theorem lowRow_filterID (f : Char) (lo : ℚ) (r : LCRow) :
    (lowRow f lo r).filterID = r.filterID := by
  unfold lowRow; split <;> rfl

theorem passRow_filterID (f : Char) (u lo : ℚ) (r : LCRow) :
    (passRow f u lo r).filterID = r.filterID := by
  unfold passRow; rw [lowRow_filterID, highRow_filterID]

theorem highRow_of_ne (f : Char) (u : ℚ) (r : LCRow)
    (h : r.filterID ≠ f) : highRow f u r = r := by
  unfold highRow; rw [if_neg (fun hc => h hc.1)]

theorem lowRow_of_ne (f : Char) (lo : ℚ) (r : LCRow)
    (h : r.filterID ≠ f) : lowRow f lo r = r := by
  unfold lowRow; rw [if_neg (fun hc => h hc.1)]

theorem passRow_of_ne (f : Char) (u lo : ℚ) (r : LCRow)
    (h : r.filterID ≠ f) : passRow f u lo r = r := by
  unfold passRow
  rw [highRow_of_ne f u r h, lowRow_of_ne f lo r h]

theorem passRow_mag (f : Char) (u lo : ℚ) (r : LCRow) :
    (passRow f u lo r).mag = r.mag := by
  unfold passRow highRow lowRow
  split <;> split <;> rfl

theorem passRow_magErr (f : Char) (u lo : ℚ) (r : LCRow) :
    (passRow f u lo r).magErr = r.magErr := by
  unfold passRow highRow lowRow
  split <;> split <;> rfl

theorem passRow_oid (f : Char) (u lo : ℚ) (r : LCRow) :
    (passRow f u lo r).oid = r.oid := by
  unfold passRow highRow lowRow
  split <;> split <;> rfl

/-- A row that enters its filter's pass still untagged comes out carrying
exactly the spec's classification, with `'low'` overwriting `'high'`. -/
theorem passRow_of_inside (f : Char) (med s3 : ℚ) (r : LCRow)
    (hf : r.filterID = f) (hin : r.outlier = Tag.inside) :
    passRow f (med + s3) (med - s3) r = { r with outlier := classifiedTag med s3 r } := by
  obtain ⟨fid, oid, mag, magErr, out⟩ := r
  simp only at hf hin
  subst hf; subst hin
  simp only [passRow, highRow, lowRow, classifiedTag]
  split_ifs <;> simp_all

/-- Resetting the tag of a row erases whatever a tagging pass did to it. -/
theorem passRow_reset (f : Char) (u lo : ℚ) (r : LCRow) :
    { passRow f u lo r with outlier := Tag.inside } =
    { r with outlier := Tag.inside } := by
  unfold passRow highRow lowRow
  split <;> split <;> rfl

theorem resetTags_tagPass (f : Char) (u lo : ℚ) (rows : List LCRow) :
    resetTags (tagPass f u lo rows) = resetTags rows := by
  rw [tagPass_eq_map]
  unfold resetTags
  rw [List.map_map]
  exact List.map_congr_left (fun r _ => passRow_reset f u lo r)

theorem resetTags_resetTags (rows : List LCRow) :
    resetTags (resetTags rows) = resetTags rows := by
  unfold resetTags
  rw [List.map_map]; rfl

/-- A tagging pass for one filter does not change another filter's outlier
count. -/
theorem outlierCount_tagPass_ne (f g : Char) (u lo : ℚ) (rows : List LCRow)
    (hne : g ≠ f) : outlierCount g (tagPass f u lo rows) = outlierCount g rows := by
  rw [tagPass_eq_map]
  induction rows with
  | nil => rfl
  | cons r t ih =>
    unfold outlierCount at ih ⊢
    by_cases hg : r.filterID = g
    · have hr : passRow f u lo r = r := passRow_of_ne f u lo r (hg ▸ hne)
      simp only [List.map_cons, List.filter_cons, hr]
      split <;> simp_all
    · have hfid := passRow_filterID f u lo r
      simp only [List.map_cons, List.filter_cons]
      rw [decide_eq_false (fun hc => hg (hfid ▸ hc.1)),
          decide_eq_false (fun hc => hg hc.1)]
      exact ih

theorem respLookup_append_of_none (l₁ l₂ : List (Char × Bool)) (a : Char)
    (h : respLookup l₁ a = none) :
    respLookup (l₁ ++ l₂) a = respLookup l₂ a := by
  induction l₁ with
  | nil => rfl
  | cons p t ih =>
    obtain ⟨k, v⟩ := p
    by_cases hk : k = a
    · simp [respLookup, hk] at h
    · simp only [respLookup, List.cons_append, if_neg hk] at h ⊢
      exact ih h

theorem respLookup_append_of_some (l₁ l₂ : List (Char × Bool)) (a : Char) (b : Bool)
    (h : respLookup l₁ a = some b) :
    respLookup (l₁ ++ l₂) a = some b := by
  induction l₁ with
  | nil => cases h
  | cons p t ih =>
    obtain ⟨k, v⟩ := p
    by_cases hk : k = a
    · simp only [respLookup, List.cons_append, if_pos hk] at h ⊢; exact h
    · simp only [respLookup, List.cons_append, if_neg hk] at h ⊢
      exact ih h

/-- The response dict never mentions a filter the loop was not given. -/
theorem respLookup_eq_none_of_not_mem (l : List (Char × Bool)) (a : Char)
    (h : a ∉ l.map Prod.fst) : respLookup l a = none := by
  induction l with
  | nil => rfl
  | cons p t ih =>
    obtain ⟨k, v⟩ := p
    simp only [List.map_cons, List.mem_cons] at h
    push_neg at h
    have hk : ¬ k = a := fun hk => h.1 hk.symm
    simp only [respLookup, if_neg hk]
    exact ih h.2

/-- Main workhorse: when every non-`'i'` filter of the worklist has median,
band and sample entries, the loop completes, appends one verdict per
worklist filter to the response, and touches neither the rows of filters
outside the worklist nor their outlier counts; erasing the tags recovers
the input rows. -/
theorem outliersLoop_ok (median sigma3 : Char → Option ℚ) (samples : Char → Option Nat)
    (thr : Threshold) :
    ∀ fs : List Char,
    (∀ g ∈ fs, g ≠ 'i' → (median g).isSome ∧ (sigma3 g).isSome ∧ (samples g).isSome) →
    ∀ (resp : List (Char × Bool)) (rows : List LCRow),
    ∃ resp₂ rows',
      outliersLoop median sigma3 samples thr fs resp rows =
        Except.ok (resp ++ resp₂, rows') ∧
      resp₂.map Prod.fst = fs ∧
      (∀ (i : Nat) (r : LCRow), rows[i]? = some r → r.filterID ∉ fs → rows'[i]? = some r) ∧
      (∀ g, g ∉ fs → outlierCount g rows' = outlierCount g rows) ∧
      resetTags rows' = resetTags rows ∧
      rows'.length = rows.length := by
  intro fs
  induction fs with
  | nil =>
    intro _ resp rows
    refine ⟨[], rows, ?_, rfl, ?_, ?_, rfl, rfl⟩
    · simp [outliersLoop]
    · exact fun i r h _ => h
    · exact fun g _ => rfl
  | cons f fs ih =>
    intro hall resp rows
    have hallfs : ∀ g ∈ fs, g ≠ 'i' →
        (median g).isSome ∧ (sigma3 g).isSome ∧ (samples g).isSome :=
      fun g hg => hall g (List.mem_cons_of_mem f hg)
    by_cases hfi : f = 'i'
    · subst hfi
      obtain ⟨resp₂, rows', h1, h2, h3, h4, h5, h6⟩ :=
        ih hallfs (resp ++ [('i', false)]) rows
      refine ⟨('i', false) :: resp₂, rows', ?_, by simp [h2], ?_, ?_, h5, h6⟩
      · simpa [outliersLoop, List.append_assoc] using h1
      · intro i r hir hnot
        exact h3 i r hir (fun hm => hnot (List.mem_cons_of_mem _ hm))
      · intro g hg
        exact h4 g (fun hm => hg (List.mem_cons_of_mem _ hm))
    · obtain ⟨hm, hs, hn⟩ := hall f (List.mem_cons_self f fs) hfi
      obtain ⟨med, hmed⟩ := Option.isSome_iff_exists.mp hm
      obtain ⟨s3, hs3⟩ := Option.isSome_iff_exists.mp hs
      obtain ⟨n, hsn⟩ := Option.isSome_iff_exists.mp hn
      set rows₁ := tagPass f (med + s3) (med - s3) rows with hrows₁
      set v := decide (thr.countMin ≤ (outlierCount f rows₁ : ℤ) ∧
                    (outlierCount f rows₁ : ℤ) ≤ thr.countMax) &&
               decide ((outlierCount f rows₁ : ℤ) ≤ pyInt ((n : ℚ) * thr.countPC)) with hv
      obtain ⟨resp₂, rows', h1, h2, h3, h4, h5, h6⟩ := ih hallfs (resp ++ [(f, v)]) rows₁
      refine ⟨(f, v) :: resp₂, rows', ?_, by simp [h2], ?_, ?_, ?_, ?_⟩
      · have hstep : outliersLoop median sigma3 samples thr (f :: fs) resp rows =
            outliersLoop median sigma3 samples thr fs (resp ++ [(f, v)]) rows₁ := by
          simp only [outliersLoop, if_neg hfi, hmed, hs3, hsn]
        rw [hstep]
        simpa [List.append_assoc] using h1
      · intro i r hir hnot
        have hne : r.filterID ≠ f := fun hc => hnot (hc ▸ List.mem_cons_self f fs)
        have : rows₁[i]? = some r := by
          simp [hrows₁, tagPass_eq_map, List.getElem?_map, hir,
            passRow_of_ne f _ _ r hne]
        exact h3 i r this (fun hm => hnot (List.mem_cons_of_mem _ hm))
      · intro g hg
        have hgf : g ≠ f := fun hc => hg (hc ▸ List.mem_cons_self f fs)
        rw [h4 g (fun hm => hg (List.mem_cons_of_mem _ hm)), hrows₁,
          outlierCount_tagPass_ne f g _ _ rows hgf]
      · rw [h5, hrows₁, resetTags_tagPass]
      · rw [h6, hrows₁, tagPass_eq_map, List.length_map]

theorem mem_uniqueFirstAux {α : Type} [DecidableEq α] (x : α) :
    ∀ (l seen : List α), x ∈ uniqueFirstAux seen l ↔ x ∈ l ∧ x ∉ seen := by
  intro l
  induction l with
  | nil => intro seen; simp [uniqueFirstAux]
  | cons a t ih =>
    intro seen
    by_cases ha : a ∈ seen
    · rw [show uniqueFirstAux seen (a :: t) = uniqueFirstAux seen t from by
        simp [uniqueFirstAux, ha]]
      rw [ih seen]
      constructor
      · exact fun ⟨h1, h2⟩ => ⟨List.mem_cons_of_mem a h1, h2⟩
      · rintro ⟨h1, h2⟩
        rcases List.mem_cons.mp h1 with hx | hx
        · exact absurd (hx ▸ ha) h2
        · exact ⟨hx, h2⟩
    · rw [show uniqueFirstAux seen (a :: t) = a :: uniqueFirstAux (a :: seen) t from by
        simp [uniqueFirstAux, ha]]
      constructor
      · intro hx
        rcases List.mem_cons.mp hx with hx | hx
        · exact ⟨hx ▸ List.mem_cons_self a t, hx ▸ ha⟩
        · obtain ⟨h1, h2⟩ := (ih (a :: seen)).mp hx
          exact ⟨List.mem_cons_of_mem a h1,
            fun hc => h2 (List.mem_cons_of_mem a hc)⟩
      · rintro ⟨h1, h2⟩
        by_cases hxa : x = a
        · exact hxa ▸ List.mem_cons_self a _
        · rcases List.mem_cons.mp h1 with hx | hx
          · exact absurd hx hxa
          · exact List.mem_cons_of_mem a ((ih (a :: seen)).mpr
              ⟨hx, fun hc => (List.mem_cons.mp hc).elim hxa h2⟩)

theorem nodup_uniqueFirstAux {α : Type} [DecidableEq α] :
    ∀ (l seen : List α), (uniqueFirstAux seen l).Nodup := by
  intro l
  induction l with
  | nil => intro seen; simp [uniqueFirstAux]
  | cons a t ih =>
    intro seen
    by_cases ha : a ∈ seen
    · simpa [uniqueFirstAux, ha] using ih seen
    · rw [show uniqueFirstAux seen (a :: t) = a :: uniqueFirstAux (a :: seen) t from by
        simp [uniqueFirstAux, ha]]
      refine List.nodup_cons.mpr ⟨?_, ih (a :: seen)⟩
      intro hc
      exact ((mem_uniqueFirstAux a t (a :: seen)).mp hc).2 (List.mem_cons_self a seen)

theorem mem_uniqueFirst {α : Type} [DecidableEq α] (x : α) (l : List α) :
    x ∈ uniqueFirst l ↔ x ∈ l := by
  rw [uniqueFirst, mem_uniqueFirstAux]
  simp

theorem nodup_uniqueFirst {α : Type} [DecidableEq α] (l : List α) :
    (uniqueFirst l).Nodup := nodup_uniqueFirstAux l []

theorem mem_filtersReturnedOf (f : Char) (table : List LCRow) :
    f ∈ filtersReturnedOf table ↔ ∃ r ∈ table, r.filterID = f := by
  rw [filtersReturnedOf, mem_uniqueFirst]
  simp [eq_comm]

theorem nodup_filtersReturnedOf (table : List LCRow) :
    (filtersReturnedOf table).Nodup := nodup_uniqueFirst _

/-- Whenever any non-`'i'` filter of the worklist lacks a median, band or
sample-count entry, the whole loop raises `KeyError`. -/
theorem outliersLoop_error (median sigma3 : Char → Option ℚ) (samples : Char → Option Nat)
    (thr : Threshold) :
    ∀ fs : List Char,
    (∃ g ∈ fs, g ≠ 'i' ∧ (median g = none ∨ sigma3 g = none ∨ samples g = none)) →
    ∀ (resp : List (Char × Bool)) (rows : List LCRow),
    outliersLoop median sigma3 samples thr fs resp rows = Except.error "KeyError" := by
  intro fs
  induction fs with
  | nil => rintro ⟨g, hg, -⟩; cases hg
  | cons f fs ih =>
    rintro ⟨g, hg, hgi, hnone⟩ resp rows
    by_cases hfi : f = 'i'
    · have hgfs : g ∈ fs := by
        rcases List.mem_cons.mp hg with h | h
        · exact absurd (h ▸ hfi) hgi
        · exact h
      simp only [outliersLoop, if_pos hfi]
      exact ih ⟨g, hgfs, hgi, hnone⟩ _ _
    · simp only [outliersLoop, if_neg hfi]
      rcases hmc : median f with _ | med
      · rfl
      · rcases hsc : sigma3 f with _ | s3
        · rfl
        · rcases hnc : samples f with _ | n
          · rfl
          · have hgfs : g ∈ fs := by
              rcases List.mem_cons.mp hg with h | h
              · subst h
                rcases hnone with h | h | h <;>
                  simp [hmc, hsc, hnc] at h
              · exact h
            exact ih ⟨g, hgfs, hgi, hnone⟩ _ _

/-- The verdict the loop records for a filter `f` of the worklist is the
conjunction of the two count criteria, evaluated at `f`'s outlier count in
the final table. -/
theorem outliersLoop_lookup (median sigma3 : Char → Option ℚ) (samples : Char → Option Nat)
    (thr : Threshold) (f : Char) (n : Nat) (hfi : f ≠ 'i') (hn : samples f = some n) :
    ∀ fs : List Char, fs.Nodup →
    (∀ g ∈ fs, g ≠ 'i' → (median g).isSome ∧ (sigma3 g).isSome ∧ (samples g).isSome) →
    f ∈ fs →
    ∀ (resp : List (Char × Bool)) (rows : List LCRow), respLookup resp f = none →
    ∃ resp' rows',
      outliersLoop median sigma3 samples thr fs resp rows = Except.ok (resp', rows') ∧
      respLookup resp' f = some
        (decide (thr.countMin ≤ (outlierCount f rows' : ℤ) ∧
                 (outlierCount f rows' : ℤ) ≤ thr.countMax) &&
         decide ((outlierCount f rows' : ℤ) ≤ pyInt ((n : ℚ) * thr.countPC))) := by
  intro fs
  induction fs with
  | nil => intro _ _ hf; cases hf
  | cons g fs ih =>
    intro hnd hall hf resp rows hresp
    obtain ⟨hgnot, hndfs⟩ := List.nodup_cons.mp hnd
    have hallfs : ∀ x ∈ fs, x ≠ 'i' →
        (median x).isSome ∧ (sigma3 x).isSome ∧ (samples x).isSome :=
      fun x hx => hall x (List.mem_cons_of_mem g hx)
    by_cases hgf : g = f
    · subst hgf
      obtain ⟨hm, hs, -⟩ := hall g (List.mem_cons_self g fs) hfi
      obtain ⟨med, hmed⟩ := Option.isSome_iff_exists.mp hm
      obtain ⟨s3, hs3⟩ := Option.isSome_iff_exists.mp hs
      set rows₁ := tagPass g (med + s3) (med - s3) rows with hrows₁
      set v := decide (thr.countMin ≤ (outlierCount g rows₁ : ℤ) ∧
                    (outlierCount g rows₁ : ℤ) ≤ thr.countMax) &&
               decide ((outlierCount g rows₁ : ℤ) ≤ pyInt ((n : ℚ) * thr.countPC)) with hv
      obtain ⟨resp₂, rows', h1, h2, h3, h4, h5, h6⟩ :=
        outliersLoop_ok median sigma3 samples thr fs hallfs (resp ++ [(g, v)]) rows₁
      refine ⟨resp ++ [(g, v)] ++ resp₂, rows', ?_, ?_⟩
      · have hstep : outliersLoop median sigma3 samples thr (g :: fs) resp rows =
            outliersLoop median sigma3 samples thr fs (resp ++ [(g, v)]) rows₁ := by
          simp only [outliersLoop, if_neg hfi, hmed, hs3, hn]
        rw [hstep, h1, List.append_assoc]
      · have hcount : outlierCount g rows' = outlierCount g rows₁ := h4 g hgnot
        rw [List.append_assoc,
          respLookup_append_of_none resp ([(g, v)] ++ resp₂) g hresp]
        simp only [List.cons_append, List.nil_append, respLookup, if_pos rfl]
        rw [hv, hcount]
        simp
    · have hffs : f ∈ fs := by
        rcases List.mem_cons.mp hf with h | h
        · exact absurd h.symm hgf
        · exact h
      by_cases hgi : g = 'i'
      · subst hgi
        have hresp' : respLookup (resp ++ [('i', false)]) f = none := by
          rw [respLookup_append_of_none _ _ _ hresp]
          simp only [respLookup]
          rw [if_neg (fun hc => hgf hc)]
        obtain ⟨resp', rows', h1, h2⟩ :=
          ih hndfs hallfs hffs (resp ++ [('i', false)]) rows hresp'
        refine ⟨resp', rows', ?_, h2⟩
        simpa only [outliersLoop, if_pos rfl] using h1
      · obtain ⟨hm, hs, hnsam⟩ := hall g (List.mem_cons_self g fs) hgi
        obtain ⟨med, hmed⟩ := Option.isSome_iff_exists.mp hm
        obtain ⟨s3, hs3⟩ := Option.isSome_iff_exists.mp hs
        obtain ⟨m, hsm⟩ := Option.isSome_iff_exists.mp hnsam
        set rows₁ := tagPass g (med + s3) (med - s3) rows with hrows₁
        set v := decide (thr.countMin ≤ (outlierCount g rows₁ : ℤ) ∧
                      (outlierCount g rows₁ : ℤ) ≤ thr.countMax) &&
                 decide ((outlierCount g rows₁ : ℤ) ≤ pyInt ((m : ℚ) * thr.countPC)) with hv
        have hresp' : respLookup (resp ++ [(g, v)]) f = none := by
          rw [respLookup_append_of_none _ _ _ hresp]
          simp only [respLookup]
          rw [if_neg (fun hc => hgf hc)]
        obtain ⟨resp', rows', h1, h2⟩ :=
          ih hndfs hallfs hffs (resp ++ [(g, v)]) rows₁ hresp'
        refine ⟨resp', rows', ?_, h2⟩
        have hstep : outliersLoop median sigma3 samples thr (g :: fs) resp rows =
            outliersLoop median sigma3 samples thr fs (resp ++ [(g, v)]) rows₁ := by
          simp only [outliersLoop, if_neg hgi, hmed, hs3, hsm]
        rw [hstep, h1]

/-- The final tag of every row whose filter is in the worklist (and is not
the disabled `'i'`), provided the row enters the loop untagged: exactly the
spec's classification with `'low'` taking precedence. -/
theorem outliersLoop_rows (median sigma3 : Char → Option ℚ) (samples : Char → Option Nat)
    (thr : Threshold) :
    ∀ fs : List Char, fs.Nodup →
    (∀ g ∈ fs, g ≠ 'i' → (median g).isSome ∧ (sigma3 g).isSome ∧ (samples g).isSome) →
    ∀ (resp : List (Char × Bool)) (rows : List LCRow),
    ∃ resp' rows',
      outliersLoop median sigma3 samples thr fs resp rows = Except.ok (resp', rows') ∧
      ∀ (i : Nat) (r : LCRow), rows[i]? = some r → r.filterID ∈ fs → r.filterID ≠ 'i' →
        r.outlier = Tag.inside →
        ∀ med s3, median r.filterID = some med → sigma3 r.filterID = some s3 →
        rows'[i]? = some { r with outlier := classifiedTag med s3 r } := by
  intro fs
  induction fs with
  | nil =>
    intro _ _ resp rows
    exact ⟨resp, rows, by simp [outliersLoop], fun i r _ hmem => absurd hmem (by simp)⟩
  | cons g fs ih =>
    intro hnd hall resp rows
    obtain ⟨hgnot, hndfs⟩ := List.nodup_cons.mp hnd
    have hallfs : ∀ x ∈ fs, x ≠ 'i' →
        (median x).isSome ∧ (sigma3 x).isSome ∧ (samples x).isSome :=
      fun x hx => hall x (List.mem_cons_of_mem g hx)
    by_cases hgi : g = 'i'
    · subst hgi
      obtain ⟨resp', rows', h1, h2⟩ := ih hndfs hallfs (resp ++ [('i', false)]) rows
      refine ⟨resp', rows', ?_, ?_⟩
      · simpa only [outliersLoop, if_pos rfl] using h1
      · intro i r hir hmem hri hin med s3 hmed hs3
        have hmemfs : r.filterID ∈ fs := by
          rcases List.mem_cons.mp hmem with h | h
          · exact absurd h hri
          · exact h
        exact h2 i r hir hmemfs hri hin med s3 hmed hs3
    · obtain ⟨hm, hs, hnsam⟩ := hall g (List.mem_cons_self g fs) hgi
      obtain ⟨medg, hmed⟩ := Option.isSome_iff_exists.mp hm
      obtain ⟨s3g, hs3⟩ := Option.isSome_iff_exists.mp hs
      obtain ⟨m, hsm⟩ := Option.isSome_iff_exists.mp hnsam
      set rows₁ := tagPass g (medg + s3g) (medg - s3g) rows with hrows₁
      set v := decide (thr.countMin ≤ (outlierCount g rows₁ : ℤ) ∧
                    (outlierCount g rows₁ : ℤ) ≤ thr.countMax) &&
               decide ((outlierCount g rows₁ : ℤ) ≤ pyInt ((m : ℚ) * thr.countPC)) with hv
      have hstep : outliersLoop median sigma3 samples thr (g :: fs) resp rows =
          outliersLoop median sigma3 samples thr fs (resp ++ [(g, v)]) rows₁ := by
        simp only [outliersLoop, if_neg hgi, hmed, hs3, hsm]
      obtain ⟨resp', rows', h1, h2⟩ := ih hndfs hallfs (resp ++ [(g, v)]) rows₁
      obtain ⟨resp₂, rows₂, k1, k2, k3, k4, k5, k6⟩ :=
        outliersLoop_ok median sigma3 samples thr fs hallfs (resp ++ [(g, v)]) rows₁
      have hrowse : rows₂ = rows' := by
        rw [h1] at k1
        exact ((Prod.mk.injEq _ _ _ _).mp (Except.ok.inj k1)).2.symm
      refine ⟨resp', rows', by rw [hstep, h1], ?_⟩
      intro i r hir hmem hri hin med s3 hmed' hs3'
      by_cases hrg : r.filterID = g
      · have hmedeq : med = medg := by
          rw [hrg] at hmed'; rw [hmed'] at hmed; exact Option.some.inj hmed
        have hs3eq : s3 = s3g := by
          rw [hrg] at hs3'; rw [hs3'] at hs3; exact Option.some.inj hs3
        subst hmedeq; subst hs3eq
        have hir₁ : rows₁[i]? = some { r with outlier := classifiedTag med s3 r } := by
          rw [hrows₁, tagPass_eq_map, List.getElem?_map, hir]
          simp only [Option.map_some']
          rw [passRow_of_inside g med s3 r hrg hin]
        have hnotfs : ({ r with outlier := classifiedTag med s3 r } : LCRow).filterID ∉ fs := by
          simpa [hrg] using hgnot
        have := k3 i _ hir₁ hnotfs
        rw [hrowse] at this
        exact this
      · have hmemfs : r.filterID ∈ fs := by
          rcases List.mem_cons.mp hmem with h | h
          · exact absurd h hrg
          · exact h
        have hir₁ : rows₁[i]? = some r := by
          rw [hrows₁, tagPass_eq_map, List.getElem?_map, hir]
          simp only [Option.map_some']
          rw [passRow_of_ne g _ _ r hrg]
        exact h2 i r hir₁ hmemfs hri hin med s3 hmed' hs3'

theorem pyInt_eq_floor (q : ℚ) (h : 0 ≤ q) : pyInt q = ⌊q⌋ := by
  rw [pyInt, if_neg (not_lt.mpr h)]

theorem respLookup_isSome_of_mem (l : List (Char × Bool)) (a : Char)
    (h : a ∈ l.map Prod.fst) : (respLookup l a).isSome := by
  induction l with
  | nil => cases h
  | cons p t ih =>
    obtain ⟨k, v⟩ := p
    by_cases hk : k = a
    · simp [respLookup, hk]
    · simp only [List.map_cons, List.mem_cons] at h
      rcases h with h | h
      · exact absurd h.symm hk
      · simp only [respLookup, if_neg hk]
        exact ih h

/-- A successful run of the classification loop changes rows only in their
`outlier` tag: resetting the tags recovers the input rows. -/
theorem outliersLoop_reset (median sigma3 : Char → Option ℚ) (samples : Char → Option Nat)
    (thr : Threshold) :
    ∀ (fs : List Char) (resp : List (Char × Bool)) (rows : List LCRow)
      (resp' : List (Char × Bool)) (rows' : List LCRow),
    outliersLoop median sigma3 samples thr fs resp rows = Except.ok (resp', rows') →
    resetTags rows' = resetTags rows := by
  intro fs
  induction fs with
  | nil =>
    intro resp rows resp' rows' h
    simp only [outliersLoop] at h
    rw [((Prod.mk.injEq _ _ _ _).mp (Except.ok.inj h)).2]
  | cons f fs ih =>
    intro resp rows resp' rows' h
    by_cases hfi : f = 'i'
    · rw [show outliersLoop median sigma3 samples thr (f :: fs) resp rows =
        outliersLoop median sigma3 samples thr fs (resp ++ [(f, false)]) rows from by
          simp only [outliersLoop, if_pos hfi]] at h
      exact ih _ _ _ _ h
    · simp only [outliersLoop, if_neg hfi] at h
      rcases hmc : median f with _ | med <;> rw [hmc] at h
      · cases h
      · rcases hsc : sigma3 f with _ | s3 <;> rw [hsc] at h
        · cases h
        · rcases hnc : samples f with _ | n <;> rw [hnc] at h
          · cases h
          · rw [ih _ _ _ _ h, resetTags_tagPass]

/-- Claim C2.  For every filter `f` present in the table other than the
disabled `'i'`, the verdict recorded for `f` is `True` exactly when both
`countMin ≤ outlierCount ≤ countMax` and
`outlierCount ≤ floor(samples[f] * countPC)` hold (`outlierCount` being the
number of rows of `f` finally tagged `'high'` or `'low'`).  The boundary
examples of the claim (`countMin=1, countMax=30, countPC=0.1, samples=100`:
counts 10 / 11 / 0 give `True` / `False` / `False`) are instances of the
equivalence. -/
theorem outliersExist_verdict_policy
    (median sigma3 : Char → Option ℚ) (samples : Char → Option Nat) (thr : Threshold)
    (table : List LCRow) (f : Char) (n : Nat)
    (hPC : 0 ≤ thr.countPC)
    (hall : ∀ g ∈ filtersReturnedOf table, g ≠ 'i' →
      (median g).isSome ∧ (sigma3 g).isSome ∧ (samples g).isSome)
    (hf : f ∈ filtersReturnedOf table) (hfi : f ≠ 'i') (hn : samples f = some n) :
    ∃ resp rows',
      outliersExist median sigma3 samples thr (filtersReturnedOf table) table =
        Except.ok (resp, rows') ∧
      ∃ b, respLookup resp f = some b ∧
        (b = true ↔ (thr.countMin ≤ (outlierCount f rows' : ℤ) ∧
           (outlierCount f rows' : ℤ) ≤ thr.countMax ∧
           (outlierCount f rows' : ℤ) ≤ ⌊(n : ℚ) * thr.countPC⌋)) := by
  obtain ⟨resp, rows', h1, h2⟩ := outliersLoop_lookup median sigma3 samples thr f n hfi hn
    (filtersReturnedOf table) (nodup_filtersReturnedOf table) hall hf [] (resetTags table) rfl
  refine ⟨resp, rows', h1, _, h2, ?_⟩
  rw [pyInt_eq_floor _ (mul_nonneg (Nat.cast_nonneg n) hPC)]
  simp [Bool.and_eq_true, decide_eq_true_eq, and_assoc]

/-- Witness for C2: a concrete table carrying one clear outlier among the
`'g'` rows, sample count 100, default thresholds: the hypotheses hold and
the characterization applies. -/
def wC2tbl : List LCRow :=
  [⟨'g', 1, 19, 5/100, Tag.inside⟩, ⟨'g', 1, 15, 5/100, Tag.inside⟩]

def wC2med : Char → Option ℚ := fun c => if c = 'g' then some 15 else none

def wC2s3 : Char → Option ℚ :=
  fun c => if c = 'g' then some (1/2) else if c = 'r' then some 0 else none

def wC2smp : Char → Option Nat := fun c => if c = 'g' then some 100 else none

theorem outliersExist_verdict_policy_witness :
    ∃ resp rows',
      outliersExist wC2med wC2s3 wC2smp defaultThreshold (filtersReturnedOf wC2tbl) wC2tbl =
        Except.ok (resp, rows') ∧
      ∃ b, respLookup resp 'g' = some b ∧
        (b = true ↔ (defaultThreshold.countMin ≤ (outlierCount 'g' rows' : ℤ) ∧
           (outlierCount 'g' rows' : ℤ) ≤ defaultThreshold.countMax ∧
           (outlierCount 'g' rows' : ℤ) ≤ ⌊(100 : ℚ) * defaultThreshold.countPC⌋)) :=
  outliersExist_verdict_policy wC2med wC2s3 wC2smp defaultThreshold wC2tbl 'g' 100
    (by norm_num [defaultThreshold])
    (by decide) (by decide) (by decide) (by decide)

/-- Claim C10.  When `floor(samples[f] * countPC) < countMin`, the verdict
for `f` is `False` no matter how many outliers were tagged: the two
acceptance criteria cannot hold together.  With the default thresholds
(`countMin = 1`, `countPC = 0.1`) this covers every filter with fewer than
10 samples. -/
theorem outliersExist_low_samples_false
    (median sigma3 : Char → Option ℚ) (samples : Char → Option Nat) (thr : Threshold)
    (table : List LCRow) (f : Char) (n : Nat)
    (hPC : 0 ≤ thr.countPC)
    (hall : ∀ g ∈ filtersReturnedOf table, g ≠ 'i' →
      (median g).isSome ∧ (sigma3 g).isSome ∧ (samples g).isSome)
    (hf : f ∈ filtersReturnedOf table) (hfi : f ≠ 'i') (hn : samples f = some n)
    (hlow : ⌊(n : ℚ) * thr.countPC⌋ < thr.countMin) :
    ∃ resp rows',
      outliersExist median sigma3 samples thr (filtersReturnedOf table) table =
        Except.ok (resp, rows') ∧
      respLookup resp f = some false := by
  obtain ⟨resp, rows', h1, h2⟩ := outliersLoop_lookup median sigma3 samples thr f n hfi hn
    (filtersReturnedOf table) (nodup_filtersReturnedOf table) hall hf [] (resetTags table) rfl
  refine ⟨resp, rows', h1, ?_⟩
  rw [h2]
  congr 1
  rw [pyInt_eq_floor _ (mul_nonneg (Nat.cast_nonneg n) hPC)] at *
  by_contra hb
  have : (decide (thr.countMin ≤ (outlierCount f rows' : ℤ) ∧
            (outlierCount f rows' : ℤ) ≤ thr.countMax) &&
          decide ((outlierCount f rows' : ℤ) ≤ ⌊(n : ℚ) * thr.countPC⌋)) = true := by
    cases hc : (decide (thr.countMin ≤ (outlierCount f rows' : ℤ) ∧
            (outlierCount f rows' : ℤ) ≤ thr.countMax) &&
          decide ((outlierCount f rows' : ℤ) ≤ ⌊(n : ℚ) * thr.countPC⌋)) with
    | false => exact absurd hc hb
    | true => rfl
  rw [Bool.and_eq_true, decide_eq_true_eq, decide_eq_true_eq] at this
  exact absurd (le_trans this.1.1 this.2) (not_le.mpr hlow)

/-- Witness for C10: default thresholds and a filter with 9 samples
(`floor(9 * 0.1) = 0 < 1`): verdict `False`. -/
def wC10smp : Char → Option Nat := fun c => if c = 'g' then some 9 else none

theorem outliersExist_low_samples_false_witness :
    ∃ resp rows',
      outliersExist wC2med wC2s3 wC10smp defaultThreshold (filtersReturnedOf wC2tbl) wC2tbl =
        Except.ok (resp, rows') ∧
      respLookup resp 'g' = some false :=
  outliersExist_low_samples_false wC2med wC2s3 wC10smp defaultThreshold wC2tbl 'g' 9
    (by norm_num [defaultThreshold])
    (by decide) (by decide) (by decide) (by decide)
    (by norm_num [defaultThreshold])

/-- Claim C3.  Every row whose filter `f` is classified (present in the
table and not the disabled `'i'`, with median and band entries available)
ends up tagged `'low'` if `mag + magErr ≤ median[f] - band`, else `'high'`
if `mag - magErr ≥ median[f] + band`, else `'inside'`: the `'low'`
assignment runs after the `'high'` one and overwrites it, so a row
satisfying both tests (possible only for a negative band) is tagged
`'low'`. -/
theorem outliersExist_row_tags
    (median sigma3 : Char → Option ℚ) (samples : Char → Option Nat) (thr : Threshold)
    (table : List LCRow)
    (hall : ∀ g ∈ filtersReturnedOf table, g ≠ 'i' →
      (median g).isSome ∧ (sigma3 g).isSome ∧ (samples g).isSome) :
    ∃ resp rows',
      outliersExist median sigma3 samples thr (filtersReturnedOf table) table =
        Except.ok (resp, rows') ∧
      ∀ (i : Nat) (r : LCRow), table[i]? = some r → r.filterID ≠ 'i' →
        ∀ med s3, median r.filterID = some med → sigma3 r.filterID = some s3 →
        rows'[i]? = some { r with outlier := classifiedTag med s3 r } := by
  obtain ⟨resp, rows', h1, h2⟩ := outliersLoop_rows median sigma3 samples thr
    (filtersReturnedOf table) (nodup_filtersReturnedOf table) hall [] (resetTags table)
  refine ⟨resp, rows', h1, ?_⟩
  intro i r hir hri med s3 hmed hs3
  have hmem : r.filterID ∈ filtersReturnedOf table := by
    rw [mem_filtersReturnedOf]
    exact ⟨r, List.getElem?_mem hir, rfl⟩
  have hreset : (resetTags table)[i]? = some { r with outlier := Tag.inside } := by
    rw [resetTags, List.getElem?_map, hir, Option.map_some']
  have := h2 i { r with outlier := Tag.inside } hreset hmem hri rfl med s3 hmed hs3
  simpa [classifiedTag] using this

/-- Witness for C3: a table with a high outlier, a low outlier, an inside
row, and (for filter `'r'`, given a negative band) a row passing both the
high and the low test, which ends up `'low'`. -/
def wC3tbl : List LCRow :=
  [⟨'g', 1, 19, 5/100, Tag.inside⟩, ⟨'g', 1, 11, 5/100, Tag.high⟩,
   ⟨'g', 1, 15, 5/100, Tag.low⟩, ⟨'r', 2, 10, 0, Tag.inside⟩]

def wC3med : Char → Option ℚ :=
  fun c => if c = 'g' then some 15 else if c = 'r' then some 10 else none

def wC3s3 : Char → Option ℚ :=
  fun c => if c = 'g' then some (1/2) else if c = 'r' then some (-1) else none

def wC3smp : Char → Option Nat := fun c => if c = 'g' ∨ c = 'r' then some 100 else none

theorem outliersExist_row_tags_witness :
    ∃ resp rows',
      outliersExist wC3med wC3s3 wC3smp defaultThreshold (filtersReturnedOf wC3tbl) wC3tbl =
        Except.ok (resp, rows') ∧
      ∀ (i : Nat) (r : LCRow), wC3tbl[i]? = some r → r.filterID ≠ 'i' →
        ∀ med s3, wC3med r.filterID = some med → wC3s3 r.filterID = some s3 →
        rows'[i]? = some { r with outlier := classifiedTag med s3 r } :=
  outliersExist_row_tags wC3med wC3s3 wC3smp defaultThreshold wC3tbl (by decide)

/-- Claim C8 (amended).  If the median, band or sample-count entry is
missing for some non-`'i'` filter present in the table, the classifier
raises `KeyError` and produces no verdicts at all; when all three entries
exist for every non-`'i'` filter present, it succeeds and the response
carries a verdict for every filter present. -/
theorem outliersExist_missing_band
    (median sigma3 : Char → Option ℚ) (samples : Char → Option Nat) (thr : Threshold)
    (table : List LCRow) :
    ((∃ g ∈ filtersReturnedOf table, g ≠ 'i' ∧
        (median g = none ∨ sigma3 g = none ∨ samples g = none)) →
      outliersExist median sigma3 samples thr (filtersReturnedOf table) table =
        Except.error "KeyError") ∧
    ((∀ g ∈ filtersReturnedOf table, g ≠ 'i' →
        (median g).isSome ∧ (sigma3 g).isSome ∧ (samples g).isSome) →
      ∃ resp rows',
        outliersExist median sigma3 samples thr (filtersReturnedOf table) table =
          Except.ok (resp, rows') ∧
        ∀ g ∈ filtersReturnedOf table, (respLookup resp g).isSome) := by
  constructor
  · intro hmissing
    exact outliersLoop_error median sigma3 samples thr (filtersReturnedOf table)
      hmissing [] (resetTags table)
  · intro hall
    obtain ⟨resp₂, rows', h1, h2, -, -, -, -⟩ :=
      outliersLoop_ok median sigma3 samples thr (filtersReturnedOf table) hall []
        (resetTags table)
    refine ⟨resp₂, rows', by simpa using h1, ?_⟩
    intro g hg
    exact respLookup_isSome_of_mem resp₂ g (h2 ▸ hg)

/-- Witness for C8: a table with `'g'` and `'z'` rows; with the default
`sigma3` keys `{'g','r'}` the `'z'` filter lacks a band entry and the whole
call raises, whereas the same table with a `'z'` entry added succeeds with
a verdict for both filters. -/
def wC8tbl : List LCRow :=
  [⟨'g', 1, 15, 5/100, Tag.inside⟩, ⟨'z', 1, 15, 5/100, Tag.inside⟩]

def wC8med : Char → Option ℚ := fun c => if c = 'g' ∨ c = 'z' then some 15 else none

def wC8smp : Char → Option Nat := fun c => if c = 'g' ∨ c = 'z' then some 50 else none

def wC8s3ok : Char → Option ℚ := fun c => if c = 'g' ∨ c = 'z' then some 1 else none

theorem outliersExist_missing_band_witness :
    (outliersExist wC8med wC2s3 wC8smp defaultThreshold (filtersReturnedOf wC8tbl) wC8tbl =
      Except.error "KeyError") ∧
    (∃ resp rows',
      outliersExist wC8med wC8s3ok wC8smp defaultThreshold (filtersReturnedOf wC8tbl) wC8tbl =
        Except.ok (resp, rows') ∧
      ∀ g ∈ filtersReturnedOf wC8tbl, (respLookup resp g).isSome) :=
  ⟨(outliersExist_missing_band wC8med wC2s3 wC8smp defaultThreshold wC8tbl).1
      (by refine ⟨'z', by decide, by decide, Or.inr (Or.inl ?_)⟩; decide),
   (outliersExist_missing_band wC8med wC8s3ok wC8smp defaultThreshold wC8tbl).2
      (by decide)⟩

/-- Counterexample to C8 as stated: with the `sigma3` dict holding only the
`'g'` and `'r'` keys it is initialised with, classifying a table that also
contains `'z'` rows raises `KeyError` — no verdict is produced for `'z'`
*or* for the healthy filter `'g'`, contradicting "yields verdict False for
that filter and still produces verdicts for all the other filters". -/
theorem outliersExist_aborts_on_missing_band :
    outliersExist wC8med wC2s3 wC8smp defaultThreshold (filtersReturnedOf wC8tbl) wC8tbl =
      Except.error "KeyError" :=
  outliersLoop_error wC8med wC2s3 wC8smp defaultThreshold (filtersReturnedOf wC8tbl)
    ⟨'z', by decide, by decide, Or.inr (Or.inl (by decide))⟩ [] (resetTags wC8tbl)

/-- Claim C9.  Classification is idempotent: the classifier begins by
resetting every row's tag to `'inside'`, and a successful run changes rows
only in their tag, so re-running it on its own output table (same medians,
bands, sample counts and thresholds) returns the same verdicts and the same
per-row tags. -/
theorem outliersExist_idempotent
    (median sigma3 : Char → Option ℚ) (samples : Char → Option Nat) (thr : Threshold)
    (fs : List Char) (table : List LCRow)
    (resp : List (Char × Bool)) (rows' : List LCRow)
    (h : outliersExist median sigma3 samples thr fs table = Except.ok (resp, rows')) :
    outliersExist median sigma3 samples thr fs rows' = Except.ok (resp, rows') := by
  have hreset : resetTags rows' = resetTags table := by
    have := outliersLoop_reset median sigma3 samples thr fs [] (resetTags table) resp rows' h
    rwa [resetTags_resetTags] at this
  rw [outliersExist, hreset]
  exact h

theorem outliersExist_idempotent_witness :
    outliersExist wC2med wC2s3 wC2smp defaultThreshold (filtersReturnedOf wC2tbl)
      [⟨'g', 1, 19, 5/100, Tag.high⟩, ⟨'g', 1, 15, 5/100, Tag.inside⟩] =
    Except.ok ([('g', true)],
      [⟨'g', 1, 19, 5/100, Tag.high⟩, ⟨'g', 1, 15, 5/100, Tag.inside⟩]) :=
  outliersExist_idempotent wC2med wC2s3 wC2smp defaultThreshold
    (filtersReturnedOf wC2tbl) wC2tbl _ _
    (by
      norm_num [outliersExist, outliersLoop, filtersReturnedOf, uniqueFirst,
        uniqueFirstAux, resetTags, tagPass, highRow, lowRow, outlierCount,
        wC2tbl, wC2med, wC2s3, wC2smp, defaultThreshold, pyInt, List.filter]
      simp)

/-- Claim C1 (the code contradicts it).  The spec's band evaluation of the
9 fitted coefficients gives `3 * Σ c_k * mag^(8-k)` — in particular `768`
for unit leading coefficient at magnitude `2` — but the source's
`threeSigma` still indexes the coefficient container with the integer
positions of its former flat-list layout, and `medSD_c` is now a dict keyed
by `'g'`/`'r'`; evaluating the `'g'` filter therefore raises `KeyError`
instead of returning the polynomial value. -/
theorem threeSigma_g_raises_KeyError :
    threeSigma 'g' 2 = Except.error "KeyError" ∧
    noiseModelEvaluateSpec [1, 0, 0, 0, 0, 0, 0, 0, 0] 2 = 768 :=
  ⟨rfl, by norm_num [noiseModelEvaluateSpec, polySumSpec]⟩

/-- Claim C6 (the code contradicts it).  The claim says the two filters
with fitted curves, `'g'` and `'r'`, evaluate to a nonzero band and all
others to `0.0`.  In the source only the `'g'` branch exists: `'r'` has a
coefficient tuple in `medSD_c` yet `threeSigma` returns `3 * 0 = 0.0` for
it — exactly as for every filter other than `'g'` (and `'g'` itself raises,
see C1). -/
theorem threeSigma_r_returns_zero :
    threeSigma 'r' 15 = Except.ok 0 ∧
    dictGet medSD_c (PyKey.str 'r') = some rCoeffs ∧
    (∀ (f : Char) (m : ℚ), f ≠ 'g' → threeSigma f m = Except.ok 0) := by
  refine ⟨?_, rfl, ?_⟩
  · simp [threeSigma]
  · intro f m hf
    simp [threeSigma, if_neg hf]

theorem threeSigma_r_returns_zero_witness :
    ('r' : Char) ≠ 'g' ∧ threeSigma 'r' 7 = Except.ok 0 :=
  ⟨by decide, threeSigma_r_returns_zero.2.2 'r' 7 (by decide)⟩

/-! ## Primary object id selection (`setID`) -/

/-- The strict-improvement scan started at a candidate `b` with running
maximum `c` either keeps `b` (everything in the list counts `≤ c`) or
returns the first element of the list whose whole-table count strictly
exceeds `c` and is never strictly exceeded later. -/
theorem setIDLoop_spec (table : List LCRow) :
    ∀ (ids : List Nat) (b c : Nat),
    (setIDLoop table ids (some b) c = some b ∧ ∀ j ∈ ids, countOID table j ≤ c) ∨
    (∃ r l₁ l₂, ids = l₁ ++ r :: l₂ ∧
      setIDLoop table ids (some b) c = some r ∧
      c < countOID table r ∧
      (∀ j ∈ l₁, countOID table j < countOID table r) ∧
      (∀ j ∈ l₂, countOID table j ≤ countOID table r)) := by
  intro ids
  induction ids with
  | nil =>
    intro b c
    exact Or.inl ⟨rfl, by simp⟩
  | cons a rest ih =>
    intro b c
    by_cases hac : countOID table a > c
    · have hstep : setIDLoop table (a :: rest) (some b) c =
          setIDLoop table rest (some a) (countOID table a) := by
        simp only [setIDLoop, if_pos hac]
      rcases ih a (countOID table a) with ⟨h1, h2⟩ | ⟨r, l₁, l₂, heq, hloop, hlt, hl₁, hl₂⟩
      · refine Or.inr ⟨a, [], rest, by simp, by rw [hstep, h1], hac, by simp, h2⟩
      · refine Or.inr ⟨r, a :: l₁, l₂, by rw [heq]; rfl, by rw [hstep, hloop],
          lt_trans hac hlt, ?_, hl₂⟩
        intro j hj
        rcases List.mem_cons.mp hj with hj | hj
        · exact hj ▸ hlt
        · exact hl₁ j hj
    · have hstep : setIDLoop table (a :: rest) (some b) c =
          setIDLoop table rest (some b) c := by
        simp only [setIDLoop, if_neg hac]
      rcases ih b c with ⟨h1, h2⟩ | ⟨r, l₁, l₂, heq, hloop, hlt, hl₁, hl₂⟩
      · refine Or.inl ⟨by rw [hstep, h1], ?_⟩
        intro j hj
        rcases List.mem_cons.mp hj with hj | hj
        · exact hj ▸ not_lt.mp hac
        · exact h2 j hj
      · refine Or.inr ⟨r, a :: l₁, l₂, by rw [heq]; rfl, by rw [hstep, hloop],
          hlt, ?_, hl₂⟩
        intro j hj
        rcases List.mem_cons.mp hj with hj | hj
        · exact hj ▸ lt_of_le_of_lt (not_lt.mp hac) hlt
        · exact hl₁ j hj

/-- Every id appearing in the filter's id array has at least one row in the
table. -/
theorem countOID_pos_of_mem_oidArray (table : List LCRow) (f : Char) (oid : Nat)
    (h : oid ∈ oidArrayOf table f) : 0 < countOID table oid := by
  rw [oidArrayOf, mem_uniqueFirst] at h
  obtain ⟨r, hr, hoid⟩ := List.mem_map.mp h
  have hrt : r ∈ table := List.mem_of_mem_filter hr
  have : r ∈ table.filter (fun x => decide (x.oid = oid)) :=
    List.mem_filter.mpr ⟨hrt, by simp [hoid]⟩
  rw [countOID]
  exact List.length_pos.mpr (List.ne_nil_of_mem this)

/-- Claim C7 (amended).  For a filter whose rows carry more than one
distinct object id, the id chosen by `setID` is, among the ids occurring in
that filter's rows, the one with the most rows in the *whole table* (across
all filter codes — not the most rows within the filter), ties broken in
favour of the id first seen among the filter's rows: the id array splits as
`l₁ ++ id :: l₂` with every earlier candidate strictly below and every
later candidate not above the chosen id's whole-table count. -/
theorem setIDFor_whole_table_argmax (table : List LCRow) (f : Char)
    (hlen : 1 < (oidArrayOf table f).length) :
    ∃ id l₁ l₂, oidArrayOf table f = l₁ ++ id :: l₂ ∧
      setIDFor table f = some id ∧
      (∀ j ∈ l₁, countOID table j < countOID table id) ∧
      (∀ j ∈ l₂, countOID table j ≤ countOID table id) := by
  rcases harr : oidArrayOf table f with _ | ⟨a, rest⟩
  · rw [harr] at hlen; cases hlen
  · have hne : (a :: rest).length ≠ 1 := by
      rw [harr] at hlen
      simp only [List.length_cons] at hlen ⊢
      omega
    have hsf : setIDFor table f = setIDLoop table (a :: rest) none 0 := by
      rw [setIDFor, harr, if_pos hne]
    have hapos : 0 < countOID table a :=
      countOID_pos_of_mem_oidArray table f a (harr ▸ List.mem_cons_self a rest)
    have hstep : setIDLoop table (a :: rest) none 0 =
        setIDLoop table rest (some a) (countOID table a) := by
      simp only [setIDLoop, if_pos hapos]
    rcases setIDLoop_spec table rest a (countOID table a) with
      ⟨h1, h2⟩ | ⟨r, l₁, l₂, heq, hloop, hlt, hl₁, hl₂⟩
    · exact ⟨a, [], rest, by simp, by rw [hsf, hstep, h1], by simp, h2⟩
    · refine ⟨r, a :: l₁, l₂, by rw [heq]; rfl, by rw [hsf, hstep, hloop], ?_, hl₂⟩
      intro j hj
      rcases List.mem_cons.mp hj with hj | hj
      · exact hj ▸ hlt
      · exact hl₁ j hj

/-- Counterexample table for C7: in filter `'g'`, id 1 has one row and id 2
has two rows, but id 1 has three rows in the whole table (two of them in
filter `'r'`). -/
def wC7tbl : List LCRow :=
  [⟨'g', 1, 0, 0, Tag.inside⟩, ⟨'r', 1, 0, 0, Tag.inside⟩, ⟨'r', 1, 0, 0, Tag.inside⟩,
   ⟨'g', 2, 0, 0, Tag.inside⟩, ⟨'g', 2, 0, 0, Tag.inside⟩]

/-- Counterexample for C7 as claimed: `setID` picks id 1 for filter `'g'`
although id 2 has strictly more rows with filter-code `'g'`. -/
theorem setIDFor_not_per_filter_argmax :
    setIDFor wC7tbl 'g' = some 1 ∧
    countOIDInFilter wC7tbl 'g' 1 < countOIDInFilter wC7tbl 'g' 2 := by
  constructor <;> decide

theorem setIDFor_whole_table_argmax_witness :
    1 < (oidArrayOf wC7tbl 'g').length ∧
    (∃ id l₁ l₂, oidArrayOf wC7tbl 'g' = l₁ ++ id :: l₂ ∧
      setIDFor wC7tbl 'g' = some id ∧
      (∀ j ∈ l₁, countOID wC7tbl j < countOID wC7tbl id) ∧
      (∀ j ∈ l₂, countOID wC7tbl j ≤ countOID wC7tbl id)) :=
  ⟨by decide, setIDFor_whole_table_argmax wC7tbl 'g' (by decide)⟩

/-! ## Lemmas about the calibration -/

/-- "Clears only": the per-row property that an operation never turns the
`Included` flag back on. -/
def IncImp (r' r : RefRow) : Prop := r'.included = true → r.included = true

theorem screenRow_incImp (r : RefRow) : IncImp (screenRow r) r := by
  intro h
  unfold screenRow at h
  split at h
  · cases h
  · exact h

theorem clipRow_incImp (med sdv sigma : ℚ) (r : RefRow) :
    IncImp (clipRow med sdv sigma r) r := by
  obtain ⟨z, sLC, sd, inc⟩ := r
  rcases sd with _ | w
  · exact fun h => h
  · intro h
    simp only [clipRow] at h
    split at h
    · exact Bool.noConfusion h
    · exact h

theorem clipRow_of_not_included (med sdv sigma : ℚ) (r : RefRow)
    (h : r.included = false) : clipRow med sdv sigma r = r := by
  obtain ⟨z, sLC, sd, inc⟩ := r
  simp only at h
  subst h
  unfold clipRow
  rcases sd with _ | w
  · rfl
  · simp only
    split <;> rfl

theorem forall₂_incImp_refl (l : List RefRow) : List.Forall₂ IncImp l l := by
  induction l with
  | nil => constructor
  | cons r t ih => exact List.Forall₂.cons (fun h => h) ih

theorem forall₂_incImp_trans (a b c : List RefRow)
    (hab : List.Forall₂ IncImp a b) (hbc : List.Forall₂ IncImp b c) :
    List.Forall₂ IncImp a c := by
  induction hab generalizing c with
  | nil => cases hbc; constructor
  | cons hr ht ih =>
    cases hbc with
    | cons hr' ht' => exact List.Forall₂.cons (fun h => hr' (hr h)) (ih _ ht')

theorem forall₂_incImp_map (f : RefRow → RefRow) (hf : ∀ r, IncImp (f r) r)
    (l : List RefRow) : List.Forall₂ IncImp (l.map f) l := by
  induction l with
  | nil => constructor
  | cons r t ih => exact List.Forall₂.cons (hf r) ih

theorem setDetailStats_rows (stdFn : List ℚ → ℚ) (st : CalibState) (p : List RefRow) :
    (setDetailStats stdFn st p).rows = st.rows := rfl

theorem statsOfStats_rows (stdFn : List ℚ → ℚ) (st : CalibState) :
    (statsOfStats stdFn st).rows = st.rows.map screenRow := by
  unfold statsOfStats
  dsimp only
  split <;> rfl

theorem optimiseLoop_incImp (stdFn : List ℚ → ℚ) (sigma : ℚ) :
    ∀ (fuel : Nat) (st : CalibState),
    List.Forall₂ IncImp (optimiseLoop stdFn sigma fuel st).rows st.rows := by
  intro fuel
  induction fuel with
  | zero => intro st; exact forall₂_incImp_refl st.rows
  | succ fuel ih =>
    intro st
    rw [optimiseLoop]
    split
    · exact forall₂_incImp_refl st.rows
    · dsimp only
      split
      · refine forall₂_incImp_trans _ _ _ (ih _) ?_
        rw [setDetailStats_rows]
        exact forall₂_incImp_map _ (clipRow_incImp _ _ _) st.rows
      · exact forall₂_incImp_map _ (clipRow_incImp _ _ _) st.rows

theorem optimiseStats_incImp (stdFn : List ℚ → ℚ) (sigma : ℚ) (cyc : Nat)
    (st : CalibState) :
    List.Forall₂ IncImp (optimiseStats stdFn sigma cyc st).rows st.rows := by
  rw [optimiseStats]
  split
  · exact optimiseLoop_incImp stdFn sigma cyc st
  · exact forall₂_incImp_refl st.rows

/-- Claim C5.  Across a calibration run the per-row `Included` flag is only
ever cleared, never re-set: the NaN screening of `statsOfStats`, the whole
clipping loop of `optimiseStats` (hence each of its iterations), and their
composition each relate every output row to its input row by
"included afterwards implies included before" (`IncImp`), row by row. -/
theorem calibration_included_monotone (stdFn : List ℚ → ℚ) (sigma : ℚ) (cyc : Nat)
    (st : CalibState) :
    List.Forall₂ IncImp (statsOfStats stdFn st).rows st.rows ∧
    (∀ st' : CalibState,
      List.Forall₂ IncImp (optimiseStats stdFn sigma cyc st').rows st'.rows) ∧
    List.Forall₂ IncImp (optimiseStats stdFn sigma cyc (statsOfStats stdFn st)).rows
      st.rows := by
  have hscreen : List.Forall₂ IncImp (statsOfStats stdFn st).rows st.rows := by
    rw [statsOfStats_rows]
    exact forall₂_incImp_map screenRow screenRow_incImp st.rows
  exact ⟨hscreen, fun st' => optimiseStats_incImp stdFn sigma cyc st',
    forall₂_incImp_trans _ _ _ (optimiseStats_incImp stdFn sigma cyc _) hscreen⟩

/-- Clipping can only shrink the included set. -/
theorem length_includedRows_clip_le (med sdv sigma : ℚ) (rows : List RefRow) :
    (includedRows (rows.map (clipRow med sdv sigma))).length ≤
    (includedRows rows).length := by
  induction rows with
  | nil => exact le_refl 0
  | cons r t ih =>
    simp only [List.map_cons, includedRows, List.filter_cons] at ih ⊢
    by_cases hc : (clipRow med sdv sigma r).included = true
    · have hr : r.included = true := clipRow_incImp med sdv sigma r hc
      rw [if_pos hc, if_pos hr]
      simpa using ih
    · rw [if_neg hc]
      by_cases hr : r.included = true
      · rw [if_pos hr]
        exact le_trans ih (by simp)
      · rw [if_neg hr]
        exact ih

/-- `muCalib` is at least 1. -/
theorem muCalib_pos (st : CalibState) : 1 ≤ muCalib st := by
  rw [muCalib]
  split <;> omega

/-- Strict decrease of the termination measure along a continuing iteration
of the clipping loop. -/
theorem muCalib_decrease (stdFn : List ℚ → ℚ) (sigma : ℚ) (st : CalibState)
    (hp0 : (includedRows (st.rows.map (clipRow st.medianOfSD st.sdOfSD sigma))).length ≠ 0)
    (hpu : (includedRows (st.rows.map (clipRow st.medianOfSD st.sdOfSD sigma))).length ≠
      st.usedSamples) :
    muCalib (setDetailStats stdFn
      { st with rows := st.rows.map (clipRow st.medianOfSD st.sdOfSD sigma),
                usedSamples :=
        (includedRows (st.rows.map (clipRow st.medianOfSD st.sdOfSD sigma))).length }
      (includedRows (st.rows.map (clipRow st.medianOfSD st.sdOfSD sigma)))) <
    muCalib st := by
  set p := includedRows (st.rows.map (clipRow st.medianOfSD st.sdOfSD sigma)) with hp
  set n := (includedRows st.rows).length with hn
  have hle : p.length ≤ n := length_includedRows_clip_le _ _ _ _
  have hproj : (setDetailStats stdFn
      { st with rows := st.rows.map (clipRow st.medianOfSD st.sdOfSD sigma),
                usedSamples := p.length } p).usedSamples = p.length := rfl
  have hrows : (setDetailStats stdFn
      { st with rows := st.rows.map (clipRow st.medianOfSD st.sdOfSD sigma),
                usedSamples := p.length } p).rows =
      st.rows.map (clipRow st.medianOfSD st.sdOfSD sigma) := rfl
  have hmu' : muCalib (setDetailStats stdFn
      { st with rows := st.rows.map (clipRow st.medianOfSD st.sdOfSD sigma),
                usedSamples := p.length } p) = 2 * p.length + 1 := by
    rw [muCalib, hproj, hrows, ← hp, if_pos rfl]
  rw [hmu', muCalib, ← hn]
  rcases lt_or_eq_of_le hle with hlt | heq
  · split <;> omega
  · rw [heq] at hpu
    rw [if_neg (fun hc => hpu hc.symm)]
    omega

/-- The clipping loop is insensitive to fuel beyond `muCalib st`: it
converges (or breaks) within `muCalib st` iterations, so it terminates even
with the `optCycles` cap removed. -/
theorem optimiseLoop_fuel_indep (stdFn : List ℚ → ℚ) (sigma : ℚ) :
    ∀ (k : Nat) (st : CalibState), muCalib st = k →
    ∀ fuel₁ fuel₂, k ≤ fuel₁ → k ≤ fuel₂ →
    optimiseLoop stdFn sigma fuel₁ st = optimiseLoop stdFn sigma fuel₂ st := by
  intro k
  induction k using Nat.strong_induction_on with
  | _ k ih =>
    intro st hk fuel₁ fuel₂ h1 h2
    have hk1 : 1 ≤ k := hk ▸ muCalib_pos st
    rcases fuel₁ with _ | f₁
    · omega
    rcases fuel₂ with _ | f₂
    · omega
    rw [optimiseLoop, optimiseLoop]
    dsimp only
    split
    · rfl
    · split
      · rename_i hne hcond
        set st' := setDetailStats stdFn
          { st with rows := st.rows.map (clipRow st.medianOfSD st.sdOfSD sigma),
                    usedSamples :=
            (includedRows (st.rows.map (clipRow st.medianOfSD st.sdOfSD sigma))).length }
          (includedRows (st.rows.map (clipRow st.medianOfSD st.sdOfSD sigma))) with hst'
        have hdec : muCalib st' < k := by
          rw [← hk]
          exact muCalib_decrease stdFn sigma st hcond.1 hcond.2
        have e₁ : optimiseLoop stdFn sigma f₁ st' =
            optimiseLoop stdFn sigma (muCalib st') st' :=
          ih (muCalib st') hdec st' rfl f₁ (muCalib st') (by omega) (le_refl _)
        have e₂ : optimiseLoop stdFn sigma f₂ st' =
            optimiseLoop stdFn sigma (muCalib st') st' :=
          ih (muCalib st') hdec st' rfl f₂ (muCalib st') (by omega) (le_refl _)
        rw [e₁, e₂]
      · rfl

/-- A row of an all-identical bin is never clipped: with the bin's SD values
all equal to the median and scatter-of-scatter 0, `clipRow` is the
identity. -/
theorem clipRow_identical (sigma v : ℚ) (r : RefRow)
    (h : r.included = true → r.sd = some v) :
    clipRow v 0 sigma r = r := by
  by_cases hinc : r.included = true
  · obtain ⟨z, sLC, sd, inc⟩ := r
    have hsd := h hinc
    simp only at hsd
    subst hsd
    simp only [clipRow]
    rw [if_neg]
    rw [mul_zero, add_zero, sub_zero]
    simp
  · exact clipRow_of_not_included _ _ _ r (Bool.not_eq_true _ ▸ hinc)

/-- Claim C4.  Termination and stopping behaviour of the calibration loop:
(1) the loop's result is unchanged once the fuel reaches `muCalib st`
(it stops — by the surviving set becoming empty, by the surviving count
matching the previous one, or by the cycle cap, whichever comes first, all
three visible in `optimiseLoop` — within that many iterations, so it
cannot run forever even without the cap); and (2) on a bin whose included
rows all carry the same SD value `v` — so the seeded statistics are
`medianOfSD = v`, `SDofSD = 0` — with `usedSamples` equal to the included
count, no row is excluded and `optimiseStats` returns the state unchanged:
the loop converges immediately, retaining the initial statistics. -/
theorem optimiseStats_terminates (stdFn : List ℚ → ℚ) (sigma : ℚ) (cyc : Nat)
    (st : CalibState) (v : ℚ) :
    (∀ fuel, muCalib st ≤ fuel →
      optimiseLoop stdFn sigma fuel st = optimiseLoop stdFn sigma (muCalib st) st) ∧
    ((∀ r ∈ st.rows, r.included = true → r.sd = some v) →
      st.medianOfSD = v → st.sdOfSD = 0 →
      st.usedSamples = (includedRows st.rows).length →
      optimiseStats stdFn sigma cyc st = st) := by
  constructor
  · intro fuel hfuel
    exact optimiseLoop_fuel_indep stdFn sigma (muCalib st) st rfl fuel (muCalib st)
      hfuel (le_refl _)
  · intro hrows hmed hsd hused
    rw [optimiseStats]
    split
    · rcases cyc with _ | c
      · rfl
      · rw [optimiseLoop]
        dsimp only
        split
        · rfl
        · have hclip : st.rows.map (clipRow st.medianOfSD st.sdOfSD sigma) = st.rows := by
            rw [hmed, hsd]
            rw [List.map_congr_left (fun r hr => clipRow_identical sigma v r (hrows r hr))]
            exact List.map_id st.rows
          rw [if_neg]
          · rw [hclip]
          · rw [hclip, ← hused]
            simp
    · rfl

/-- Witness bin for C4: two included rows with identical SD 1, seeded
statistics `medianOfSD = 1`, `SDofSD = 0`, `usedSamples = 2`. -/
def wC4st : CalibState :=
  { rows := [⟨true, 3, some 1, true⟩, ⟨true, 2, some 1, true⟩],
    medianOfSD := 1, sdOfSD := 0, meanOfSD := 1, meanSamplesLC := 5/2,
    totalSamples := 2, usedSamples := 2 }

theorem optimiseStats_terminates_witness :
    (muCalib wC4st ≤ muCalib wC4st + 5 ∧
      optimiseLoop (fun _ => 0) 3 (muCalib wC4st + 5) wC4st =
      optimiseLoop (fun _ => 0) 3 (muCalib wC4st) wC4st) ∧
    optimiseStats (fun _ => 0) 3 3 wC4st = wC4st :=
  ⟨⟨Nat.le_add_right _ 5,
    (optimiseStats_terminates (fun _ => 0) 3 3 wC4st 1).1 (muCalib wC4st + 5)
      (Nat.le_add_right _ 5)⟩,
   (optimiseStats_terminates (fun _ => 0) 3 3 wC4st 1).2
     (by intro r hr _; fin_cases hr <;> rfl) rfl rfl rfl⟩

end LCE
